import Mathlib

/-!
Verification of the open-addressing hash tables of `spbu-python-course`.

Shallow embedding of `src/project/task5/hash.py` (class `HashTable`, the
single-owner variant) and `src/project/task6/MPHashTable.py` (class
`MPHashTable`, the variant shared behind a reentrant lock), together with
proofs and refutations of the frozen claims about them.

Modelling decisions, stated once here:

* Keys and values are arbitrary types with decidable equality; the Python
  built-in `hash` is an explicit parameter `hash : K → Int` (CPython's `hash`
  on small non-negative `int`s is the identity, which is what all concrete
  counterexamples use, with the identity function as `hash`).
* Python `%` on `int` with a positive right operand agrees with `Int.emod`,
  which is what `HMod.hMod` on `Int` is in Lean; a `%` by zero raises
  `ZeroDivisionError` in Python and is modelled as `Option.none`.
* The slot array is a `List (Slot K V)`: `Slot.empty` is Python `None`,
  `Slot.deleted` is the `_DELETED` sentinel, `Slot.occupied k v` is the
  `(key, value)` tuple.  `_size` is a Python `int`, hence `Int` here.
* `_load_factor` is a Python `float`; it is modelled as `ℚ`.  Every load
  factor appearing in a concrete run below compares against ratios with a
  margin far larger than double rounding error, so the `ℚ` and `float`
  comparisons agree on all runs used in theorems.
* The mutually recursive cluster `_find_index` / `_resize` /
  `_resize_if_needed` / `__setitem__` (the re-insertion loop of `_resize`
  included) is genuinely recursive in Python (an emergency resize inside
  `_find_index` re-enters `_find_index`; re-insertion inside `_resize` can
  re-enter `_resize`), so it is embedded as a single fuel-indexed
  interpreter; `none` means the fuel ran out (or a Python exception such as
  `ZeroDivisionError` escaped).  All top-level results proved below are of
  the form `= some _` and therefore describe actual terminating Python runs.
* Methods of the task5 class mutate `self`; each embedded operation
  therefore returns the table state after the call next to its result, so
  that frame properties (which operations leave the state unchanged) are
  expressible.
-/

set_option autoImplicit false

namespace HashSpec

/-- One slot of the backing array of either table: Python `None`
(`empty`), the `_DELETED` sentinel (`deleted`), or a `(key, value)`
tuple (`occupied`). -/
inductive Slot (K V : Type) where
  | empty
  | deleted
  | occupied (key : K) (val : V)
deriving DecidableEq

/-- The state shared by both classes: `_capacity`, `_load_factor`,
`_table` and `_size`. -/
structure HashTable (K V : Type) where
  capacity : Nat
  loadFactor : ℚ
  table : List (Slot K V)
  size : Int
deriving DecidableEq

variable {K V : Type} [DecidableEq K] [DecidableEq V]

/-- Model of `HashTable.__init__` / `MPHashTable.__init__`: validates
`initial_capacity > 0` and `0 < load_factor < 1`, then allocates an
all-`None` array.  `none` models the `ValueError`
(`InvalidConfiguration`). -/
def mkHashTable (initialCapacity : Int) (loadFactor : ℚ) : Option (HashTable K V) :=
  if initialCapacity ≤ 0 then none
  else if ¬(0 < loadFactor ∧ loadFactor < 1) then none
  else some { capacity := initialCapacity.toNat
            , loadFactor := loadFactor
            , table := List.replicate initialCapacity.toNat .empty
            , size := 0 }

/-- Model of `_hash1`: `hash(key) % capacity`.  (For every reachable table
`capacity ≥ 1`, so the Python modulo is defined; `Int.emod` by the positive
capacity matches Python `%` and is non-negative.) -/
def hash1 (hash : K → Int) (t : HashTable K V) (k : K) : Nat :=
  ((hash k) % (t.capacity : Int)).toNat

/-- Model of `_hash2`: `1 + (hash(key) % (capacity - 1))`.  For `capacity ≤ 1` the
Python code divides by zero (`ZeroDivisionError`), modelled as `none`. -/
def hash2 (hash : K → Int) (capacity : Nat) (k : K) : Option Nat :=
  if capacity ≤ 1 then none
  else some (1 + ((hash k) % ((capacity : Int) - 1)).toNat)

/-- The slot at index `i` (`self._table[i]`); indices produced by the code
are always in range on reachable states, so the default is irrelevant
there. -/
def slotAt (t : HashTable K V) (i : Nat) : Slot K V :=
  t.table.getD i .empty

/-- The `first_deleted` bookkeeping of `_find_index`: Python keeps the first
deleted index seen (`if first_deleted == -1: first_deleted = index`). -/
def optOr : Option Nat → Option Nat → Option Nat
  | some d, _ => some d
  | none, y => y

/-- Result of the probe-sequence scan loop shared by both `_find_index`
implementations: the key was found at `i`; an empty slot was hit at `i`
with `first_deleted` as recorded; or all `capacity` iterations ran out
with `first_deleted` as recorded. -/
inductive Probe where
  | found (i : Nat)
  | free (i : Nat) (firstDeleted : Option Nat)
  | exhausted (firstDeleted : Option Nat)
deriving DecidableEq

/-- The probe index formula of `MPHashTable._find_index`:
`(start_index + i * hash2) % capacity`. -/
def probeAt (start h2 cap i : Nat) : Nat :=
  (start + i * h2) % cap

/-- The scan loop of `HashTable._find_index` (task5): the probe sequence
is produced by `_probe_sequence`, which starts at `start_index` and steps
`index = (index + hash2) % capacity`; the arguments are the current
index, the remaining iterations (initially `capacity`) and
`first_deleted`. -/
def walk5 (tbl : List (Slot K V)) (k : K) (cap h2 : Nat) :
    Nat → Nat → Option Nat → Probe
  | _, 0, fd => .exhausted fd
  | idx, steps + 1, fd =>
    match tbl.getD idx .empty with
    | .empty => .free idx fd
    | .deleted => walk5 tbl k cap h2 ((idx + h2) % cap) steps (optOr fd (some idx))
    | .occupied k' _ =>
      if k' = k then .found idx
      else walk5 tbl k cap h2 ((idx + h2) % cap) steps fd

/-- The scan loop of `MPHashTable._find_index` (task6): iteration `i`
examines `(start_index + i * hash2) % capacity`; the arguments are the
iteration counter `i`, the remaining iterations and `first_deleted`. -/
def walk6 (tbl : List (Slot K V)) (k : K) (cap start h2 : Nat) :
    Nat → Nat → Option Nat → Probe
  | _, 0, fd => .exhausted fd
  | i, steps + 1, fd =>
    match tbl.getD (probeAt start h2 cap i) .empty with
    | .empty => .free (probeAt start h2 cap i) fd
    | .deleted =>
      walk6 tbl k cap start h2 (i + 1) steps (optOr fd (some (probeAt start h2 cap i)))
    | .occupied k' _ =>
      if k' = k then .found (probeAt start h2 cap i)
      else walk6 tbl k cap start h2 (i + 1) steps fd

/-- Model of `MPHashTable._find_index` (task6).  After the walk: on an empty slot,
return the first deleted index if one was seen, else the empty index;
after exhausting all `capacity` iterations, return the first deleted
index if one was seen, else `(0, False)`.  It never resizes.  `none`
models the `ZeroDivisionError` of `_hash2` at `capacity ≤ 1`. -/
def findIndexMP (hash : K → Int) (t : HashTable K V) (k : K) : Option (Nat × Bool) :=
  match hash2 hash t.capacity k with
  | none => none
  | some h2 =>
    match walk6 t.table k t.capacity (hash1 hash t k) h2 0 t.capacity none with
    | .found i => some (i, true)
    | .free i fd => some ((optOr fd (some i)).getD 0, false)
    | .exhausted (some d) => some (d, false)
    | .exhausted none => some (0, false)

/-- The resize trigger `(self._size + 1) / self._capacity >=
self._load_factor` of `_resize_if_needed` (both variants).  The division
is written multiplicatively over the load factor's numerator and
denominator so that concrete runs evaluate inside the kernel; the
theorem `loadExceeded_iff` below proves this `Bool` equivalent to the
literal rational inequality whenever `capacity > 0` (on `capacity = 0`
Python would raise `ZeroDivisionError`, but every constructed table has
`capacity ≥ 1`). -/
def loadExceeded (t : HashTable K V) : Bool :=
  t.loadFactor.num * (t.capacity : Int) ≤ (t.size + 1) * (t.loadFactor.den : Int)

/-- First index holding Python `None`, in array order: the fallback scan
`for i in range(capacity): if table[i] is None` of task5's
`_find_index`. -/
def firstEmptyIdx (tbl : List (Slot K V)) : Option Nat :=
  tbl.findIdx? fun s => match s with | .empty => true | _ => false

/-- The mutually recursive internal methods of task5's `HashTable`:
`_find_index`, `_resize` (whose re-insertion loop is `reinsert`),
`_resize_if_needed` and `__setitem__`. -/
inductive Call5 (K V : Type) where
  | findIndex (k : K)
  | resize (newCapacity : Nat)
  | reinsert (items : List (Slot K V))
  | resizeIfNeeded
  | setItem (k : K) (v : V)

/-- Result of an internal task5 method: the table state after the call,
plus `(index, found)` for `_find_index`. -/
inductive Out5 (K V : Type) where
  | state (t : HashTable K V)
  | findRes (t : HashTable K V) (index : Nat) (found : Bool)
deriving DecidableEq

/-- Fuel-indexed interpreter for the recursive cluster of task5's
`HashTable` (see the module docstring).  Faithful points:

* `_find_index` walks the probe sequence for `capacity` iterations; on an
  empty slot or a match it returns; after exhaustion it returns the first
  deleted index if any, else scans the whole array for the first `None`,
  else performs the emergency `_resize(capacity * 2 + 1)` and recurses;
* `_resize` installs a fresh all-`None` array of the new capacity with
  `size = 0` and re-inserts every occupied pair through `__setitem__`;
* `_resize_if_needed` resizes iff `(size + 1) / capacity >= load_factor`;
* `__setitem__` first calls `_resize_if_needed`, then `_find_index`, then
  writes `(key, value)` at the returned index, incrementing `_size`
  exactly when the key was not found. -/
def run5 (hash : K → Int) : Nat → HashTable K V → Call5 K V → Option (Out5 K V)
  | 0, _, _ => none
  | fuel + 1, t, .findIndex k =>
    match hash2 hash t.capacity k with
    | none => none
    | some h2 =>
      match walk5 t.table k t.capacity h2 (hash1 hash t k) t.capacity none with
      | .found i => some (.findRes t i true)
      | .free i fd => some (.findRes t ((optOr fd (some i)).getD 0) false)
      | .exhausted (some d) => some (.findRes t d false)
      | .exhausted none =>
        match firstEmptyIdx t.table with
        | some i => some (.findRes t i false)
        | none =>
          match run5 hash fuel t (.resize (t.capacity * 2 + 1)) with
          | some (.state t') => run5 hash fuel t' (.findIndex k)
          | _ => none
  | fuel + 1, t, .resize newCapacity =>
    run5 hash fuel
      { capacity := newCapacity
      , loadFactor := t.loadFactor
      , table := List.replicate newCapacity .empty
      , size := 0 }
      (.reinsert t.table)
  | _ + 1, t, .reinsert [] => some (.state t)
  | fuel + 1, t, .reinsert (s :: rest) =>
    match s with
    | .occupied k v =>
      match run5 hash fuel t (.setItem k v) with
      | some (.state t') => run5 hash fuel t' (.reinsert rest)
      | _ => none
    | _ => run5 hash fuel t (.reinsert rest)
  | fuel + 1, t, .resizeIfNeeded =>
    if loadExceeded t then
      run5 hash fuel t (.resize (t.capacity * 2 + 1))
    else some (.state t)
  | fuel + 1, t, .setItem k v =>
    match run5 hash fuel t .resizeIfNeeded with
    | some (.state t1) =>
      match run5 hash fuel t1 (.findIndex k) with
      | some (.findRes t2 i found) =>
        if found then
          some (.state { t2 with table := t2.table.set i (.occupied k v) })
        else
          some (.state { t2 with
            table := t2.table.set i (.occupied k v),
            size := t2.size + 1 })
      | _ => none
    | _ => none

/-- task5 `__setitem__` as a state transformer. -/
def setItem5 (hash : K → Int) (fuel : Nat) (t : HashTable K V) (k : K) (v : V) :
    Option (HashTable K V) :=
  match run5 hash fuel t (.setItem k v) with
  | some (.state t') => some t'
  | _ => none

/-- task5 `__getitem__`: the table state after the call (its
`_find_index` can resize) together with `some value`, or `none` for the
`KeyError`. -/
def getItem5 (hash : K → Int) (fuel : Nat) (t : HashTable K V) (k : K) :
    Option (HashTable K V × Option V) :=
  match run5 hash fuel t (.findIndex k) with
  | some (.findRes t' i true) =>
    match slotAt t' i with
    | .occupied _ v => some (t', some v)
    | _ => none
  | some (.findRes t' _ false) => some (t', none)
  | _ => none

/-- task5 `__delitem__`: `true` means the pair was deleted (slot becomes
the tombstone, `_size` decremented), `false` means `KeyError`. -/
def delItem5 (hash : K → Int) (fuel : Nat) (t : HashTable K V) (k : K) :
    Option (HashTable K V × Bool) :=
  match run5 hash fuel t (.findIndex k) with
  | some (.findRes t' i true) =>
    some ({ t' with table := t'.table.set i .deleted, size := t'.size - 1 }, true)
  | some (.findRes t' _ false) => some (t', false)
  | _ => none

/-- task5 `__contains__`: the table state after the call together with the
`found` flag. -/
def contains5 (hash : K → Int) (fuel : Nat) (t : HashTable K V) (k : K) :
    Option (HashTable K V × Bool) :=
  match run5 hash fuel t (.findIndex k) with
  | some (.findRes t' _ found) => some (t', found)
  | _ => none

/-- Model of `__iter__` of both classes: the keys of occupied slots in array
order (pure: it reads the array and touches nothing). -/
def keysList (t : HashTable K V) : List K :=
  t.table.filterMap fun s => match s with | .occupied k _ => some k | _ => none

/-- Model of `__len__` of both classes: returns `self._size`. -/
def lenTable (t : HashTable K V) : Int :=
  t.size

/-- Model of `clear` of both classes: fresh all-`None` array of the same capacity,
`size = 0`. -/
def clearTable (t : HashTable K V) : HashTable K V :=
  { t with table := List.replicate t.capacity .empty, size := 0 }

/-- The recursive internal methods of task6's `MPHashTable`:
`_resize` (with its re-insertion loop `reinsert`), `_resize_if_needed`
and `__setitem__`.  (`_find_index` is non-recursive there, see
`findIndexMP`.) -/
inductive Call6 (K V : Type) where
  | resize (newCapacity : Nat)
  | reinsert (items : List (Slot K V))
  | resizeIfNeeded
  | setItem (k : K) (v : V)

/-- Fuel-indexed interpreter for the recursive cluster of task6's
`MPHashTable`.  `__setitem__` differs from task5: after a not-found
locate it re-checks the returned slot; if the slot is occupied it forces
`_resize(capacity * 2 + 1)`, locates again and writes unconditionally,
incrementing `_size`. -/
def run6 (hash : K → Int) : Nat → HashTable K V → Call6 K V → Option (HashTable K V)
  | 0, _, _ => none
  | fuel + 1, t, .resize newCapacity =>
    run6 hash fuel
      { capacity := newCapacity
      , loadFactor := t.loadFactor
      , table := List.replicate newCapacity .empty
      , size := 0 }
      (.reinsert t.table)
  | _ + 1, t, .reinsert [] => some t
  | fuel + 1, t, .reinsert (s :: rest) =>
    match s with
    | .occupied k v =>
      match run6 hash fuel t (.setItem k v) with
      | some t' => run6 hash fuel t' (.reinsert rest)
      | none => none
    | _ => run6 hash fuel t (.reinsert rest)
  | fuel + 1, t, .resizeIfNeeded =>
    if loadExceeded t then
      run6 hash fuel t (.resize (t.capacity * 2 + 1))
    else some t
  | fuel + 1, t, .setItem k v =>
    match run6 hash fuel t .resizeIfNeeded with
    | some t1 =>
      match findIndexMP hash t1 k with
      | some (i, found) =>
        if found then
          some { t1 with table := t1.table.set i (.occupied k v) }
        else
          match slotAt t1 i with
          | .occupied _ _ =>
            match run6 hash fuel t1 (.resize (t1.capacity * 2 + 1)) with
            | some t2 =>
              match findIndexMP hash t2 k with
              | some (i2, _) =>
                some { t2 with
                  table := t2.table.set i2 (.occupied k v),
                  size := t2.size + 1 }
              | none => none
            | none => none
          | _ =>
            some { t1 with
              table := t1.table.set i (.occupied k v),
              size := t1.size + 1 }
      | none => none
    | none => none

/-- task6 `__setitem__` as a state transformer. -/
def setItem6 (hash : K → Int) (fuel : Nat) (t : HashTable K V) (k : K) (v : V) :
    Option (HashTable K V) :=
  run6 hash fuel t (.setItem k v)

/-- task6 `__getitem__`: `some value`, or `none` for the `KeyError`.  Its
`_find_index` never mutates, so no state is returned. -/
def getItem6 (hash : K → Int) (t : HashTable K V) (k : K) : Option (Option V) :=
  match findIndexMP hash t k with
  | some (i, true) =>
    match slotAt t i with
    | .occupied _ v => some (some v)
    | _ => none
  | some (_, false) => some none
  | none => none

/-- task6 `__delitem__`: `true` means deleted (tombstone written, `_size`
decremented), `false` means `KeyError`. -/
def delItem6 (hash : K → Int) (t : HashTable K V) (k : K) :
    Option (HashTable K V × Bool) :=
  match findIndexMP hash t k with
  | some (i, true) =>
    some ({ t with table := t.table.set i .deleted, size := t.size - 1 }, true)
  | some (_, false) => some (t, false)
  | none => none

/-- task6 `__contains__`: just the `found` flag (never mutates). -/
def contains6 (hash : K → Int) (t : HashTable K V) (k : K) : Option Bool :=
  (findIndexMP hash t k).map Prod.snd

/-- Tests whether the slot is occupied and holds the key `k`. -/
def holdsKey (k : K) (s : Slot K V) : Bool :=
  match s with | .occupied k' _ => decide (k' = k) | _ => false

/-- Number of occupied slots holding the key `k`. -/
def countKey (tbl : List (Slot K V)) (k : K) : Nat :=
  tbl.countP (holdsKey k)

/-- The first tombstone on the probe sequence, looking at positions
`a, a+1, …, a+j-1` of the sequence `m ↦ (start + m * h2) % cap`: the
value `first_deleted` holds after those iterations of either scan loop
when it entered them unset. -/
def firstDelFrom (tbl : List (Slot K V)) (start h2 cap : Nat) : Nat → Nat → Option Nat
  | _, 0 => none
  | a, j + 1 =>
    match tbl.getD (probeAt start h2 cap a) .empty with
    | .deleted => some (probeAt start h2 cap a)
    | _ => firstDelFrom tbl start h2 cap (a + 1) j

/-- Number of occupied slots. -/
def occCount (tbl : List (Slot K V)) : Nat :=
  tbl.countP fun s => match s with | .occupied _ _ => true | _ => false

/-- Tests whether the array holds no tombstone. -/
def tombFree (tbl : List (Slot K V)) : Bool :=
  tbl.all fun s => match s with | .deleted => false | _ => true

/-- CPython's `hash` restricted to small non-negative `int`s: the
identity.  All concrete runs below use such keys only. -/
def idHash : Int → Int := fun n => n

/-- The rational 9/10, as an explicit reduced fraction so that runs using
it evaluate inside the kernel (`lfNineTenths_eq` below checks the
value). -/
def lfNineTenths : ℚ := ⟨9, 10, by norm_num, by norm_num⟩

/-- The rational 7/10, as an explicit reduced fraction. -/
def lfSevenTenths : ℚ := ⟨7, 10, by norm_num, by norm_num⟩

/-- The rational 1/2, as an explicit reduced fraction. -/
def lfHalf : ℚ := ⟨1, 2, by norm_num, by norm_num⟩

/-! ## Concrete runs used by the refutations

Every state below is reachable: it is produced by a chain of public
operations starting from the constructor, with `int` keys whose CPython
hashes are the keys themselves. -/

/-- Chained task5 `__setitem__` on integer keys (fuel 30 amply covers
every run below; all results are `some`, i.e. actual terminating runs). -/
def set5I (t : Option (HashTable Int Int)) (k v : Int) : Option (HashTable Int Int) :=
  t.bind fun t' => setItem5 idHash 30 t' k v

/-- Chained task5 `__delitem__` on integer keys. -/
def del5I (t : Option (HashTable Int Int)) (k : Int) : Option (HashTable Int Int) :=
  t.bind fun t' => (delItem5 idHash 30 t' k).map Prod.fst

/-- Chained task6 `__setitem__` on integer keys. -/
def set6I (t : Option (HashTable Int Int)) (k v : Int) : Option (HashTable Int Int) :=
  t.bind fun t' => setItem6 idHash 30 t' k v

/-- The run `HashTable(4, 0.9)` then `t[0]=10; t[2]=20; t[4]=30`.  Key 4 probes
`0, 2, 0, 2, …` (its step `hash2 = 2` shares a factor with capacity 4),
finds both slots occupied, and the fallback array scan writes it at
slot 1 — off its own probe sequence. -/
def tC1 : Option (HashTable Int Int) :=
  set5I (set5I (set5I (mkHashTable 4 lfNineTenths) 0 10) 2 20) 4 30

/-- The run `HashTable(7, 0.7)` then `t[35]=1; t[30]=2; t[10]=3; t[60]=4`: four
occupied slots, no resize yet, all four keys retrievable. -/
def tC2a : Option (HashTable Int Int) :=
  set5I (set5I (set5I (set5I (mkHashTable 7 lfSevenTenths) 35 1) 30 2) 10 3) 60 4

/-- State `tC2a` then `t[1]=5`: `(4+1)/7 ≥ 0.7` triggers the automatic resize
to capacity 15.  During re-insertion key 60 probes `0, 5, 10, …` (step 5,
capacity 15), finds the re-inserted 30, 35, 10 there, and is written at
slot 1 — off its probe sequence in the new table. -/
def tC2b : Option (HashTable Int Int) :=
  set5I tC2a 1 5

/-- State `tC2b` then `t[60]=99` again: locate misses the off-sequence copy of
60, so a second occupied slot with key 60 is created. -/
def tC4 : Option (HashTable Int Int) :=
  set5I tC2b 60 99

/-- The run `MPHashTable(4, 0.9)` then `t[0]=10; t[2]=20`. -/
def tC3 : Option (HashTable Int Int) :=
  set6I (set6I (mkHashTable 4 lfNineTenths) 0 10) 2 20

/-- State `tC3` then `t[4]=30` — the same program as `tC1` but on the task6
variant, where the occupied-slot re-check inside `__setitem__` forces a
resize to capacity 9 and key 4 lands on its probe sequence. -/
def tC8six : Option (HashTable Int Int) :=
  set6I tC3 4 30

/-- The run `HashTable(4, 0.9)` then `t[0]=10; t[1]=11; t[3]=13; del t[1];
del t[3]; t[2]=12`: slots 0 and 2 occupied, slots 1 and 3 tombstones —
no `None` slot anywhere. -/
def tC10 : Option (HashTable Int Int) :=
  set5I (del5I (del5I (set5I (set5I (set5I (mkHashTable 4 lfNineTenths) 0 10) 1 11) 3 13) 1) 3) 2 12

/-! ## Refutations on concrete reachable states -/

set_option maxRecDepth 4000

/-- Claim C1, refuted. The round-trip property fails on task5's `HashTable`: on
`HashTable(4, 0.9)`, after `t[0]=10; t[2]=20; t[4]=30`, the lookup
`t[4]` raises `KeyError` (second conjunct) even though exactly one
occupied slot holds key 4 (third conjunct) and it was never deleted.
`set(4, 30)` is the last operation of the run, so this is literally
`set(k, v)` immediately followed by `get(k)`. -/
theorem C1_set_then_get_fails :
    (tC1.map fun t => t.capacity) = some 4 ∧
    (tC1.bind fun t => (getItem5 idHash 30 t 4).map Prod.snd) = some none ∧
    (tC1.map fun t => countKey t.table 4) = some 1 := by
  decide

/-- Claim C2, refuted. Resize does not preserve retrievability on task5's
`HashTable`: on `HashTable(7, 0.7)` after `t[35]=1; t[30]=2; t[10]=3;
t[60]=4`, key 60 is retrievable (first conjunct, capacity still 7); the
next insertion `t[1]=5` triggers the automatic load-factor resize to
capacity 15 (fourth conjunct), after which `t[60]` raises `KeyError`
(third conjunct) although 60 was previously set, never deleted, and its
pair still sits in the table (fifth conjunct). -/
theorem C2_resize_drops_key :
    (tC2a.bind fun t => (getItem5 idHash 30 t 60).map Prod.snd) = some (some 4) ∧
    (tC2a.map fun t => t.capacity) = some 7 ∧
    (tC2b.bind fun t => (getItem5 idHash 30 t 60).map Prod.snd) = some none ∧
    (tC2b.map fun t => t.capacity) = some 15 ∧
    (tC2b.map fun t => countKey t.table 60) = some 1 := by
  decide

/-- Claim C4, refuted. The key-uniqueness invariant fails on task5's `HashTable`:
after the reachable run `tC2b`, the public operation `t[60]=99` leaves
two distinct occupied slots holding key 60 (first conjunct); `_size`
still equals the number of occupied slots (6 = 6, second conjunct), so
the violated conjunct of the claimed invariant is uniqueness. -/
theorem C4_duplicate_key :
    (tC4.map fun t => countKey t.table 60) = some 2 ∧
    (tC4.map fun t => (occCount t.table, t.size)) = some (6, 6) := by
  decide

/-- Claim C5, counterexample. A present key can fail to delete on task5's
`HashTable`: in the reachable state `tC1`, exactly one occupied slot
holds key 4 (second conjunct), yet `del t[4]` raises `KeyError` (first
conjunct, `false` = not found) instead of tombstoning it. -/
theorem C5_present_key_delete_fails :
    (tC1.bind fun t => (delItem5 idHash 30 t 4).map Prod.snd) = some false ∧
    (tC1.map fun t => countKey t.table 4) = some 1 := by
  decide

/-- Claim C3, counterexample. On task6's `MPHashTable(4, 0.9)` holding keys
0 and 2, locating key 4 exhausts its probe sequence `0, 2, 0, 2` and
returns `(0, False)` (first conjunct) — but slot 0 is occupied by key 0
(second conjunct), the table has no tombstone, and its first empty slot
is 1 (third conjunct): the returned insertion point is neither a
tombstone of the sequence nor the first empty slot. -/
theorem C3_exhausted_returns_occupied_slot :
    (tC3.bind fun t => findIndexMP idHash t 4) = some (0, false) ∧
    (tC3.map fun t => slotAt t 0) = some (.occupied 0 10) ∧
    (tC3.map fun t => (firstEmptyIdx t.table, tombFree t.table)) = some (some 1, true) := by
  decide

/-- Claim C7, counterexample. task6's locate does not resize-and-retry on
probe exhaustion: in the state `tC3` the probe sequence of key 4 is
exhausted without finding the key or a free slot, yet `_find_index`
just returns `(0, False)` with slot 0 occupied (no resize — its result
type cannot even carry a new table), and a subsequent `t[4]` surfaces
`KeyError` (second conjunct) rather than retrying on a grown table. -/
theorem C7_mp_exhaustion_no_retry :
    (tC3.bind fun t => findIndexMP idHash t 4) = some (0, false) ∧
    (tC3.bind fun t => getItem6 idHash t 4) = some none ∧
    (tC3.map fun t => slotAt t 0) = some (.occupied 0 10) := by
  decide

/-- Claim C8, counterexample. The same operation sequence — construct with
`(4, 0.9)`, `t[0]=10; t[2]=20; t[4]=30`, then `t[4]` — gives different
results on the two variants: task5 raises `KeyError`, task6 returns 30.
The wrappers do not expose an identical operation contract. -/
theorem C8_variants_diverge :
    (tC1.bind fun t => (getItem5 idHash 30 t 4).map Prod.snd) = some none ∧
    (tC8six.bind fun t => getItem6 idHash t 4) = some (some 30) := by
  decide

/-- Claim C10, counterexample. A read-only operation mutates task5's
`HashTable`: in the reachable state `tC10` (capacity 4: two occupied
slots, two tombstones, no `None` slot), `4 in t` walks the probe
sequence `0, 2, 0, 2`, sees no tombstone and no empty slot, and
`_find_index` performs the emergency resize: after the membership test
the capacity is 9 (second conjunct), though the result is just
`False`. -/
theorem C10_contains_resizes :
    (tC10.map fun t => t.capacity) = some 4 ∧
    (tC10.bind fun t => (contains5 idHash 30 t 4).map fun p => (p.1.capacity, p.2))
      = some (9, false) := by
  decide

/-- Claim C6, refuted. The constructor accepts `initial_capacity = 1` (first
conjunct), but `_hash2` then computes `hash(key) % 0`, a
`ZeroDivisionError` (second conjunct, modelled as `none`): the secondary
hash is not well-defined on every table the constructor accepts. -/
theorem C6_hash2_zero_division :
    (mkHashTable 1 lfHalf : Option (HashTable Int Int)) = some ⟨1, lfHalf, [.empty], 0⟩ ∧
    hash2 idHash 1 5 = none := by
  decide

/-! ## Sanity of the modelling shortcuts -/

/-- The literal `lfNineTenths` is the rational 9/10. -/
theorem lfNineTenths_eq : lfNineTenths = 9 / 10 := by
  have h : lfNineTenths = ((9 : Int) : ℚ) / ((10 : Nat) : ℚ) :=
    (Rat.num_div_den lfNineTenths).symm
  rw [h]; norm_num

/-- The literal `lfSevenTenths` is the rational 7/10. -/
theorem lfSevenTenths_eq : lfSevenTenths = 7 / 10 := by
  have h : lfSevenTenths = ((7 : Int) : ℚ) / ((10 : Nat) : ℚ) :=
    (Rat.num_div_den lfSevenTenths).symm
  rw [h]; norm_num

/-- The literal `lfHalf` is the rational 1/2. -/
theorem lfHalf_eq : lfHalf = 1 / 2 := by
  have h : lfHalf = ((1 : Int) : ℚ) / ((2 : Nat) : ℚ) :=
    (Rat.num_div_den lfHalf).symm
  rw [h]; norm_num

/-- The multiplicative resize trigger `loadExceeded` is exactly the
source's `(size + 1) / capacity >= load_factor` over `ℚ` whenever the
capacity is positive (which it is on every constructed table). -/
theorem loadExceeded_iff (t : HashTable K V) (hcap : 0 < t.capacity) :
    loadExceeded t = true ↔
      ((t.size + 1 : Int) : ℚ) / (t.capacity : ℚ) ≥ t.loadFactor := by
  have hc : (0 : ℚ) < (t.capacity : ℚ) := by exact_mod_cast hcap
  have hd : (0 : ℚ) < (t.loadFactor.den : ℚ) := by exact_mod_cast t.loadFactor.den_pos
  have hmul : t.loadFactor * (t.capacity : ℚ)
      = (t.loadFactor.num : ℚ) * (t.capacity : ℚ) / (t.loadFactor.den : ℚ) := by
    conv_lhs => rw [← Rat.num_div_den t.loadFactor]
    ring
  simp only [loadExceeded, decide_eq_true_eq, ge_iff_le]
  rw [le_div_iff₀ hc, hmul, div_le_iff₀ hd]
  constructor
  · intro hh; exact_mod_cast hh
  · intro hh; exact_mod_cast hh

/-! ## Basic facts about the hashes and the array -/

/-- The index `_hash1` lands in `[0, capacity)`. -/
theorem hash1_lt (hash : K → Int) (t : HashTable K V) (k : K) (h : 0 < t.capacity) :
    hash1 hash t k < t.capacity := by
  unfold hash1
  have hpos : (0 : Int) < (t.capacity : Int) := by exact_mod_cast h
  have h1 : 0 ≤ hash k % (t.capacity : Int) := Int.emod_nonneg _ (ne_of_gt hpos)
  have h2 : hash k % (t.capacity : Int) < (t.capacity : Int) := Int.emod_lt_of_pos _ hpos
  exact (Int.toNat_lt h1).mpr h2

/-- On any table with `capacity ≥ 2`, `_hash2` is defined and lands in
`[1, capacity)` — the range claimed by the docstrings of both classes. -/
theorem hash2_range (hash : K → Int) (c : Nat) (k : K) (h : 2 ≤ c) :
    ∃ s2, hash2 hash c k = some s2 ∧ 1 ≤ s2 ∧ s2 < c := by
  unfold hash2
  rw [if_neg (by omega)]
  refine ⟨_, rfl, by omega, ?_⟩
  have hpos : (0 : Int) < (c : Int) - 1 := by
    have : (2 : Int) ≤ (c : Int) := by exact_mod_cast h
    omega
  have h1 : 0 ≤ hash k % ((c : Int) - 1) := Int.emod_nonneg _ (by omega)
  have h2 : hash k % ((c : Int) - 1) < (c : Int) - 1 := Int.emod_lt_of_pos _ hpos
  have h3 : (hash k % ((c : Int) - 1)).toNat < c - 1 := by
    have hc1 : ((c - 1 : Nat) : Int) = (c : Int) - 1 := by omega
    exact (Int.toNat_lt h1).mpr (by omega)
  omega

/-- Reading `getD` after `set` at the same in-range index. -/
theorem getD_set_self {α : Type} {l : List α} {i : Nat} (h : i < l.length) (a d : α) :
    (l.set i a).getD i d = a := by
  rw [List.getD_eq_getElem?_getD, List.getElem?_set_self h]; rfl

/-- Reading `getD` after `set` at a different index. -/
theorem getD_set_ne {α : Type} (l : List α) {i j : Nat} (h : i ≠ j) (a d : α) :
    (l.set i a).getD j d = l.getD j d := by
  rw [List.getD_eq_getElem?_getD, List.getElem?_set_ne h, ← List.getD_eq_getElem?_getD]

/-- A `getD` value that differs from the default is a member of the list. -/
theorem getD_mem_of_ne {α : Type} {l : List α} {i : Nat} {d : α} (h : l.getD i d ≠ d) :
    l.getD i d ∈ l := by
  rw [List.getD_eq_getElem?_getD] at h ⊢
  cases hh : l[i]? with
  | none => rw [hh] at h; exact absurd rfl h
  | some a =>
    simp only [Option.getD_some]
    rcases List.getElem?_eq_some.mp hh with ⟨hlt, rfl⟩
    exact List.getElem_mem hlt

/-- A `getD` value that differs from the default comes from an in-range
index. -/
theorem lt_length_of_getD_ne {α : Type} {l : List α} {i : Nat} {d : α}
    (h : l.getD i d ≠ d) : i < l.length := by
  by_contra hge
  exact h (List.getD_eq_default l d (by omega))

/-- Setting one slot raises `countP` by at most one. -/
theorem countP_set_le {α : Type} (p : α → Bool) (l : List α) (i : Nat) (a : α) :
    (l.set i a).countP p ≤ l.countP p + 1 := by
  induction l generalizing i with
  | nil => simp
  | cons x xs ih =>
    cases i with
    | zero =>
      simp only [List.set, List.countP_cons]
      have := @List.countP_le_length _ p xs
      split <;> split <;> omega
    | succ n =>
      simp only [List.set, List.countP_cons]
      have := ih n
      split <;> omega

/-- Writing an occupied slot preserves tombstone-freeness. -/
theorem tombFree_set_occupied {l : List (Slot K V)} (i : Nat) (k : K) (v : V)
    (h : tombFree l = true) : tombFree (l.set i (.occupied k v)) = true := by
  rw [tombFree, List.all_eq_true] at *
  intro x hx
  rcases List.mem_or_eq_of_mem_set hx with hmem | heq
  · exact h x hmem
  · subst heq; rfl

/-- A fresh all-empty array is tombstone-free. -/
theorem tombFree_replicate (n : Nat) :
    tombFree (List.replicate n (Slot.empty : Slot K V)) = true := by
  rw [tombFree, List.all_eq_true]
  intro x hx
  rcases (List.mem_replicate.mp hx) with ⟨_, rfl⟩
  rfl

/-- A tombstone-free array with fewer occupied slots than its length has
an empty slot, and the fallback scan of task5's `_find_index` finds
one. -/
theorem firstEmptyIdx_isSome {l : List (Slot K V)} (htf : tombFree l = true)
    (hocc : occCount l < l.length) : ∃ j, firstEmptyIdx l = some j := by
  have hex : ∃ x ∈ l, x = Slot.empty := by
    by_contra hne
    push_neg at hne
    have hlen : occCount l = l.length := by
      rw [occCount, List.countP_eq_length]
      intro a ha
      rw [tombFree, List.all_eq_true] at htf
      match a, hne a ha, htf a ha with
      | .occupied k v, _, _ => rfl
      | .empty, hh, _ => exact absurd rfl hh
      | .deleted, _, hh => exact absurd hh (by simp)
    omega
  have main : ∀ (l' : List (Slot K V)) (i : Nat), (∃ x ∈ l', x = Slot.empty) →
      ∃ j, l'.findIdx? (fun s => match s with | .empty => true | _ => false) i = some j := by
    intro l'
    induction l' with
    | nil => intro i h; simp at h
    | cons x xs ih =>
      intro i h
      rw [List.findIdx?_cons]
      match x with
      | .empty => exact ⟨i, by simp⟩
      | .deleted =>
        rcases h with ⟨y, hy, rfl⟩
        simp only [List.mem_cons] at hy
        rcases hy with h1 | h2
        · exact absurd h1.symm (by simp)
        · exact ih (i + 1) ⟨_, h2, rfl⟩
      | .occupied k v =>
        rcases h with ⟨y, hy, rfl⟩
        simp only [List.mem_cons] at hy
        rcases hy with h1 | h2
        · exact absurd h1.symm (by simp)
        · exact ih (i + 1) ⟨_, h2, rfl⟩
  exact main l 0 hex

/-! ## The probe walk -/

theorem optOr_none_right (fd : Option Nat) : optOr fd none = fd := by
  cases fd <;> rfl

theorem optOr_some_left (d : Nat) (x : Option Nat) : optOr (some d) x = some d := rfl

theorem optOr_assoc (a b c : Option Nat) : optOr (optOr a b) c = optOr a (optOr b c) := by
  cases a <;> cases b <;> rfl

theorem probeAt_lt (start h2 cap i : Nat) (h : 0 < cap) : probeAt start h2 cap i < cap :=
  Nat.mod_lt _ h

theorem probeAt_zero (start h2 cap : Nat) (h : start < cap) : probeAt start h2 cap 0 = start := by
  unfold probeAt
  simp [Nat.mod_eq_of_lt h]

/-- Stepping the iteratively-computed index of task5's `_probe_sequence`
lands on the closed-form index of task6. -/
theorem probeAt_succ (start h2 cap i : Nat) :
    (probeAt start h2 cap i + h2) % cap = probeAt start h2 cap (i + 1) := by
  unfold probeAt
  rw [Nat.mod_add_mod]
  congr 1
  ring

theorem walk6_zero (tbl : List (Slot K V)) (k : K) (cap start h2 i : Nat) (fd : Option Nat) :
    walk6 tbl k cap start h2 i 0 fd = .exhausted fd := rfl

theorem walk6_eq_empty {tbl : List (Slot K V)} {k : K} {cap start h2 i : Nat} (s : Nat)
    (fd : Option Nat) (h : tbl.getD (probeAt start h2 cap i) .empty = .empty) :
    walk6 tbl k cap start h2 i (s + 1) fd = .free (probeAt start h2 cap i) fd := by
  simp only [walk6]
  rw [h]

theorem walk6_eq_deleted {tbl : List (Slot K V)} {k : K} {cap start h2 i : Nat} (s : Nat)
    (fd : Option Nat) (h : tbl.getD (probeAt start h2 cap i) .empty = .deleted) :
    walk6 tbl k cap start h2 i (s + 1) fd
      = walk6 tbl k cap start h2 (i + 1) s (optOr fd (some (probeAt start h2 cap i))) := by
  simp only [walk6]
  rw [h]

theorem walk6_eq_occupied {tbl : List (Slot K V)} {k : K} {cap start h2 i : Nat} (s : Nat)
    (fd : Option Nat) {k' : K} {v : V}
    (h : tbl.getD (probeAt start h2 cap i) .empty = .occupied k' v) :
    walk6 tbl k cap start h2 i (s + 1) fd
      = if k' = k then .found (probeAt start h2 cap i)
        else walk6 tbl k cap start h2 (i + 1) s fd := by
  simp only [walk6]
  rw [h]

theorem walk5_zero (tbl : List (Slot K V)) (k : K) (cap h2 idx : Nat) (fd : Option Nat) :
    walk5 tbl k cap h2 idx 0 fd = .exhausted fd := rfl

theorem walk5_eq_empty {tbl : List (Slot K V)} {k : K} {cap h2 idx : Nat} (s : Nat)
    (fd : Option Nat) (h : tbl.getD idx .empty = .empty) :
    walk5 tbl k cap h2 idx (s + 1) fd = .free idx fd := by
  simp only [walk5]
  rw [h]

theorem walk5_eq_deleted {tbl : List (Slot K V)} {k : K} {cap h2 idx : Nat} (s : Nat)
    (fd : Option Nat) (h : tbl.getD idx .empty = .deleted) :
    walk5 tbl k cap h2 idx (s + 1) fd
      = walk5 tbl k cap h2 ((idx + h2) % cap) s (optOr fd (some idx)) := by
  simp only [walk5]
  rw [h]

theorem walk5_eq_occupied {tbl : List (Slot K V)} {k : K} {cap h2 idx : Nat} (s : Nat)
    (fd : Option Nat) {k' : K} {v : V} (h : tbl.getD idx .empty = .occupied k' v) :
    walk5 tbl k cap h2 idx (s + 1) fd
      = if k' = k then .found idx else walk5 tbl k cap h2 ((idx + h2) % cap) s fd := by
  simp only [walk5]
  rw [h]

/-- The iterative scan of task5's `_find_index` and the closed-form scan
of task6's `_find_index` visit the same indices and return the same
result. -/
theorem walk5_eq_walk6 (tbl : List (Slot K V)) (k : K) (cap start h2 : Nat) :
    ∀ (s i : Nat) (fd : Option Nat),
    walk5 tbl k cap h2 (probeAt start h2 cap i) s fd = walk6 tbl k cap start h2 i s fd := by
  intro s
  induction s with
  | zero => intro i fd; rfl
  | succ n ih =>
    intro i fd
    cases hslot : tbl.getD (probeAt start h2 cap i) .empty with
    | empty => rw [walk5_eq_empty n fd hslot, walk6_eq_empty n fd hslot]
    | deleted =>
      rw [walk5_eq_deleted n fd hslot, walk6_eq_deleted n fd hslot, probeAt_succ]
      exact ih (i + 1) _
    | occupied k' v =>
      rw [walk5_eq_occupied n fd hslot, walk6_eq_occupied n fd hslot]
      by_cases hk : k' = k
      · rw [if_pos hk, if_pos hk]
      · rw [if_neg hk, if_neg hk, probeAt_succ]
        exact ih (i + 1) fd

theorem firstDelFrom_zero (tbl : List (Slot K V)) (start h2 cap a : Nat) :
    firstDelFrom tbl start h2 cap a 0 = none := rfl

theorem firstDelFrom_succ_deleted {tbl : List (Slot K V)} {start h2 cap a : Nat} (j : Nat)
    (h : tbl.getD (probeAt start h2 cap a) .empty = .deleted) :
    firstDelFrom tbl start h2 cap a (j + 1) = some (probeAt start h2 cap a) := by
  simp only [firstDelFrom]
  rw [h]

theorem firstDelFrom_succ_other {tbl : List (Slot K V)} {start h2 cap a : Nat} (j : Nat)
    {s : Slot K V} (h : tbl.getD (probeAt start h2 cap a) .empty = s) (hs : s ≠ .deleted) :
    firstDelFrom tbl start h2 cap a (j + 1) = firstDelFrom tbl start h2 cap (a + 1) j := by
  simp only [firstDelFrom]
  rw [h]
  cases s with
  | empty => rfl
  | deleted => exact absurd rfl hs
  | occupied k v => rfl

/-- Skipping a prefix of the scan: if the first `j` probed slots neither
match the key nor are empty, the scan continues past them, accumulating
the first tombstone of the prefix into `first_deleted`. -/
theorem walk6_skip (tbl : List (Slot K V)) (k : K) (cap start h2 : Nat) :
    ∀ (j a s : Nat) (fd : Option Nat), j ≤ s →
    (∀ m, m < j → tbl.getD (probeAt start h2 cap (a + m)) .empty ≠ .empty ∧
       ∀ v, tbl.getD (probeAt start h2 cap (a + m)) .empty ≠ .occupied k v) →
    walk6 tbl k cap start h2 a s fd
      = walk6 tbl k cap start h2 (a + j) (s - j)
          (optOr fd (firstDelFrom tbl start h2 cap a j)) := by
  intro j
  induction j with
  | zero =>
    intro a s fd _ _
    rw [firstDelFrom_zero, optOr_none_right, Nat.add_zero, Nat.sub_zero]
  | succ n ih =>
    intro a s fd hj hpre
    cases s with
    | zero => omega
    | succ s' =>
      have h0 := hpre 0 (by omega)
      rw [Nat.add_zero] at h0
      cases hslot : tbl.getD (probeAt start h2 cap a) .empty with
      | empty => exact absurd hslot h0.1
      | deleted =>
        rw [walk6_eq_deleted s' fd hslot]
        have hpre' : ∀ m, m < n →
            tbl.getD (probeAt start h2 cap (a + 1 + m)) .empty ≠ .empty ∧
            ∀ v, tbl.getD (probeAt start h2 cap (a + 1 + m)) .empty ≠ .occupied k v := by
          intro m hm
          have := hpre (m + 1) (by omega)
          rw [show a + (m + 1) = a + 1 + m by omega] at this
          exact this
        rw [ih (a + 1) s' (optOr fd (some (probeAt start h2 cap a))) (by omega) hpre']
        rw [firstDelFrom_succ_deleted n hslot, optOr_assoc, optOr_some_left]
        congr 1 <;> omega
      | occupied k' v =>
        have hk : k' ≠ k := by
          intro hkk
          exact (h0.2 v) (by rw [hslot, hkk])
        rw [walk6_eq_occupied s' fd hslot, if_neg hk]
        have hpre' : ∀ m, m < n →
            tbl.getD (probeAt start h2 cap (a + 1 + m)) .empty ≠ .empty ∧
            ∀ v', tbl.getD (probeAt start h2 cap (a + 1 + m)) .empty ≠ .occupied k v' := by
          intro m hm
          have := hpre (m + 1) (by omega)
          rw [show a + (m + 1) = a + 1 + m by omega] at this
          exact this
        rw [ih (a + 1) s' fd (by omega) hpre']
        rw [firstDelFrom_succ_other n hslot (by simp)]
        congr 1 <;> omega

/-- Inversion of a successful scan: `found i` means slot `i` is the
first probed slot occupied with the key, reached through a prefix of
non-empty, non-matching slots. -/
theorem walk6_found_inv (tbl : List (Slot K V)) (k : K) (cap start h2 : Nat) :
    ∀ (s a : Nat) (fd : Option Nat) (i : Nat),
    walk6 tbl k cap start h2 a s fd = .found i →
    ∃ j, j < s ∧ probeAt start h2 cap (a + j) = i ∧
      (∃ v, tbl.getD i .empty = .occupied k v) ∧
      (∀ m, m < j → tbl.getD (probeAt start h2 cap (a + m)) .empty ≠ .empty ∧
        ∀ v', tbl.getD (probeAt start h2 cap (a + m)) .empty ≠ .occupied k v') := by
  intro s
  induction s with
  | zero => intro a fd i h; exact absurd h (by rw [walk6_zero]; simp)
  | succ n ih =>
    intro a fd i h
    cases hslot : tbl.getD (probeAt start h2 cap a) .empty with
    | empty =>
      rw [walk6_eq_empty n fd hslot] at h
      exact absurd h (by simp)
    | deleted =>
      rw [walk6_eq_deleted n fd hslot] at h
      rcases ih (a + 1) _ i h with ⟨j, hj, hpj, hocc, hpre⟩
      refine ⟨j + 1, by omega, by rw [show a + (j + 1) = a + 1 + j by omega]; exact hpj,
        hocc, ?_⟩
      intro m hm
      cases m with
      | zero =>
        rw [Nat.add_zero]
        exact ⟨by rw [hslot]; simp, fun v' => by rw [hslot]; simp⟩
      | succ m' =>
        have := hpre m' (by omega)
        rw [show a + 1 + m' = a + (m' + 1) by omega] at this
        exact this
    | occupied k' v =>
      rw [walk6_eq_occupied n fd hslot] at h
      by_cases hk : k' = k
      · rw [if_pos hk] at h
        have hi : probeAt start h2 cap a = i := by
          cases h; rfl
        subst hk
        exact ⟨0, by omega, by rw [Nat.add_zero]; exact hi,
          ⟨v, by rw [← hi]; exact hslot⟩, fun m hm => absurd hm (by omega)⟩
      · rw [if_neg hk] at h
        rcases ih (a + 1) fd i h with ⟨j, hj, hpj, hocc, hpre⟩
        refine ⟨j + 1, by omega, by rw [show a + (j + 1) = a + 1 + j by omega]; exact hpj,
          hocc, ?_⟩
        intro m hm
        cases m with
        | zero =>
          rw [Nat.add_zero]
          refine ⟨by rw [hslot]; simp, fun v' hv => ?_⟩
          rw [hslot] at hv
          exact hk ((Slot.occupied.injEq _ _ _ _).mp hv).1
        | succ m' =>
          have := hpre m' (by omega)
          rw [show a + 1 + m' = a + (m' + 1) by omega] at this
          exact this

/-- If no slot of the array is occupied with the key, the scan never
returns `found`. -/
theorem walk6_no_found (tbl : List (Slot K V)) (k : K) (cap start h2 : Nat)
    (hnm : ∀ i v, tbl.getD i .empty ≠ .occupied k v) :
    ∀ (s a : Nat) (fd : Option Nat) (i : Nat),
    walk6 tbl k cap start h2 a s fd ≠ .found i := by
  intro s
  induction s with
  | zero => intro a fd i h; rw [walk6_zero] at h; exact absurd h (by simp)
  | succ n ih =>
    intro a fd i h
    cases hslot : tbl.getD (probeAt start h2 cap a) .empty with
    | empty => rw [walk6_eq_empty n fd hslot] at h; exact absurd h (by simp)
    | deleted => rw [walk6_eq_deleted n fd hslot] at h; exact ih (a + 1) _ i h
    | occupied k' v =>
      rw [walk6_eq_occupied n fd hslot] at h
      by_cases hk : k' = k
      · exact hnm _ v (by rw [hslot, hk])
      · rw [if_neg hk] at h
        exact ih (a + 1) fd i h

/-- If no slot of the array is occupied with the key and `first_deleted`
is already set, the scan ends in `free` or `exhausted` carrying that
same `first_deleted`. -/
theorem walk6_no_match_somefd (tbl : List (Slot K V)) (k : K) (cap start h2 : Nat)
    (hnm : ∀ i v, tbl.getD i .empty ≠ .occupied k v) :
    ∀ (s a d : Nat),
    (∃ i, walk6 tbl k cap start h2 a s (some d) = .free i (some d)) ∨
    walk6 tbl k cap start h2 a s (some d) = .exhausted (some d) := by
  intro s
  induction s with
  | zero => intro a d; right; rw [walk6_zero]
  | succ n ih =>
    intro a d
    cases hslot : tbl.getD (probeAt start h2 cap a) .empty with
    | empty => left; exact ⟨_, walk6_eq_empty n _ hslot⟩
    | deleted =>
      rw [walk6_eq_deleted n _ hslot, optOr_some_left]
      exact ih (a + 1) d
    | occupied k' v =>
      by_cases hk : k' = k
      · exact absurd (by rw [hslot, hk]) (hnm _ v)
      · rw [walk6_eq_occupied n _ hslot, if_neg hk]
        exact ih (a + 1) d

theorem optOr_getD_zero (fd : Option Nat) (i : Nat) :
    (optOr fd (some i)).getD 0 = fd.getD i := by
  cases fd <;> rfl

theorem optOr_none_left (y : Option Nat) : optOr none y = y := rfl

/-- Lemma: `MPHashTable._find_index` expressed through the scan result. -/
theorem findIndexMP_eq (hash : K → Int) (t : HashTable K V) (k : K) (s2 : Nat)
    (h2v : hash2 hash t.capacity k = some s2) :
    findIndexMP hash t k =
      match walk6 t.table k t.capacity (hash1 hash t k) s2 0 t.capacity none with
      | .found i => some (i, true)
      | .free i fd => some ((optOr fd (some i)).getD 0, false)
      | .exhausted (some d) => some (d, false)
      | .exhausted none => some (0, false) := by
  unfold findIndexMP
  rw [h2v]

/-- Lemma: `HashTable._find_index` (one fuel layer) expressed through the same
scan as task6's, using that its iteratively-stepped probe sequence visits
the same indices. -/
theorem run5_find_eq (hash : K → Int) (g : Nat) (t : HashTable K V) (k : K) (s2 : Nat)
    (h2v : hash2 hash t.capacity k = some s2) (hstart : hash1 hash t k < t.capacity) :
    run5 hash (g + 1) t (.findIndex k) =
      match walk6 t.table k t.capacity (hash1 hash t k) s2 0 t.capacity none with
      | .found i => some (.findRes t i true)
      | .free i fd => some (.findRes t ((optOr fd (some i)).getD 0) false)
      | .exhausted (some d) => some (.findRes t d false)
      | .exhausted none =>
        match firstEmptyIdx t.table with
        | some i => some (.findRes t i false)
        | none =>
          match run5 hash g t (.resize (t.capacity * 2 + 1)) with
          | some (.state t') => run5 hash g t' (.findIndex k)
          | _ => none := by
  have hw : walk5 t.table k t.capacity s2 (hash1 hash t k) t.capacity none
      = walk6 t.table k t.capacity (hash1 hash t k) s2 0 t.capacity none := by
    conv_lhs => rw [← probeAt_zero (hash1 hash t k) s2 t.capacity hstart]
    exact walk5_eq_walk6 t.table k t.capacity (hash1 hash t k) s2 t.capacity 0 none
  simp only [run5, h2v, hw]

/-- Computing `_hash2` succeeds only on capacities of at least 2. -/
theorem hash2_some_le (hash : K → Int) (c : Nat) (k : K) (s2 : Nat)
    (h : hash2 hash c k = some s2) : 2 ≤ c := by
  by_contra hc
  unfold hash2 at h
  rw [if_pos (by omega)] at h
  exact absurd h (by simp)

/-- Equation `holdsKey k s = false` says exactly that `s` is not an occupied slot
with key `k`. -/
theorem holdsKey_false_iff (k : K) (s : Slot K V) :
    holdsKey k s = false ↔ ∀ v, s ≠ .occupied k v := by
  cases s with
  | empty => simp [holdsKey]
  | deleted => simp [holdsKey]
  | occupied k' v' =>
    simp only [holdsKey, decide_eq_false_iff_not]
    constructor
    · intro hk v hv
      exact hk ((Slot.occupied.injEq _ _ _ _).mp hv).1
    · intro hv hk
      subst hk
      exact hv v' rfl

/-- Claim C3, amended. On either variant, as long as the probe walk
terminates within `capacity` iterations — at position `j` it meets the
key or an empty slot, every earlier probed slot being neither empty nor
occupied with the key — `_find_index` behaves as specified: if slot
`probe(j)` holds the key it returns `(probe(j), found=true)`; if slot
`probe(j)` is empty it returns, with `found=false`, the earliest
tombstone among the probed prefix if there is one and the empty slot
`probe(j)` otherwise.  The task5 table is returned unchanged (no
emergency resize on this path), for every fuel.  The claim's original
universal reading is refuted by `C3_exhausted_returns_occupied_slot`:
when the walk exhausts all `capacity` iterations, task6 returns slot 0
even when occupied by another key. -/
theorem C3_locate_walk_spec (hash : K → Int) (t : HashTable K V) (k : K) (s2 j : Nat)
    (h2v : hash2 hash t.capacity k = some s2)
    (hj : j < t.capacity)
    (hpre : ∀ m, m < j →
      slotAt t (probeAt (hash1 hash t k) s2 t.capacity m) ≠ .empty ∧
      holdsKey k (slotAt t (probeAt (hash1 hash t k) s2 t.capacity m)) = false) :
    (∀ v, slotAt t (probeAt (hash1 hash t k) s2 t.capacity j) = .occupied k v →
      findIndexMP hash t k = some (probeAt (hash1 hash t k) s2 t.capacity j, true) ∧
      ∀ g, run5 hash (g + 1) t (.findIndex k)
        = some (.findRes t (probeAt (hash1 hash t k) s2 t.capacity j) true)) ∧
    (slotAt t (probeAt (hash1 hash t k) s2 t.capacity j) = .empty →
      findIndexMP hash t k
        = some ((firstDelFrom t.table (hash1 hash t k) s2 t.capacity 0 j).getD
            (probeAt (hash1 hash t k) s2 t.capacity j), false) ∧
      ∀ g, run5 hash (g + 1) t (.findIndex k)
        = some (.findRes t
            ((firstDelFrom t.table (hash1 hash t k) s2 t.capacity 0 j).getD
              (probeAt (hash1 hash t k) s2 t.capacity j)) false)) := by
  have hcap := hash2_some_le hash t.capacity k s2 h2v
  have hstart := hash1_lt hash t k (by omega)
  have hpre' : ∀ m, m < j →
      t.table.getD (probeAt (hash1 hash t k) s2 t.capacity (0 + m)) .empty ≠ .empty ∧
      ∀ v, t.table.getD (probeAt (hash1 hash t k) s2 t.capacity (0 + m)) .empty
        ≠ .occupied k v := by
    intro m hm
    rw [Nat.zero_add]
    exact ⟨(hpre m hm).1, (holdsKey_false_iff k _).mp (hpre m hm).2⟩
  have hskip := walk6_skip t.table k t.capacity (hash1 hash t k) s2 j 0 t.capacity none
    (by omega) hpre'
  rw [Nat.zero_add, optOr_none_left] at hskip
  have hs' : t.capacity - j = (t.capacity - j - 1) + 1 := by omega
  rw [hs'] at hskip
  constructor
  · intro v hv
    have hv' : t.table.getD (probeAt (hash1 hash t k) s2 t.capacity j) .empty
        = .occupied k v := hv
    have hw : walk6 t.table k t.capacity (hash1 hash t k) s2 0 t.capacity none
        = .found (probeAt (hash1 hash t k) s2 t.capacity j) := by
      rw [hskip, walk6_eq_occupied _ _ hv', if_pos rfl]
    refine ⟨?_, fun g => ?_⟩
    · simp only [findIndexMP_eq hash t k s2 h2v, hw]
    · simp only [run5_find_eq hash g t k s2 h2v hstart, hw]
  · intro hv
    have hv' : t.table.getD (probeAt (hash1 hash t k) s2 t.capacity j) .empty
        = .empty := hv
    have hw : walk6 t.table k t.capacity (hash1 hash t k) s2 0 t.capacity none
        = .free (probeAt (hash1 hash t k) s2 t.capacity j)
            (firstDelFrom t.table (hash1 hash t k) s2 t.capacity 0 j) := by
      rw [hskip, walk6_eq_empty _ _ hv']
    refine ⟨?_, fun g => ?_⟩
    · simp only [findIndexMP_eq hash t k s2 h2v, hw, optOr_getD_zero]
    · simp only [run5_find_eq hash g t k s2 h2v hstart, hw, optOr_getD_zero]

/-- Witness for `C3_locate_walk_spec` on the concrete table
`[occupied 1 7, tombstone, empty]` (capacity 3, a reachable shape) and
key 4: the walk passes the occupied slot 1 and the tombstone at slot 1
of the probe sequence, hits the empty slot 2, and locate returns the
earlier tombstone index 1 with `found = false`, on both variants. -/
theorem C3_locate_walk_spec_witness :
    findIndexMP idHash (⟨3, lfHalf, [.occupied 1 7, .deleted, .empty], 1⟩ : HashTable Int Int) 4
      = some (1, false) ∧
    run5 idHash 1 (⟨3, lfHalf, [.occupied 1 7, .deleted, .empty], 1⟩ : HashTable Int Int)
      (.findIndex 4)
      = some (.findRes ⟨3, lfHalf, [.occupied 1 7, .deleted, .empty], 1⟩ 1 false) := by
  have h := (C3_locate_walk_spec idHash
    (⟨3, lfHalf, [.occupied 1 7, .deleted, .empty], 1⟩ : HashTable Int Int) 4 1 1
    (by decide) (by decide)
    (by
      intro m hm
      have hm0 : m = 0 := by omega
      subst hm0
      exact ⟨by decide, by decide⟩)).2
  have h2 := h (by decide)
  exact ⟨by rw [h2.1]; decide, by rw [h2.2 0]; decide⟩

/-- Claim C8, amended. The two variants' locate operations agree — same
index, same `found` flag, task5's table returned unchanged for any fuel —
on every table state and key whose probe walk does not exhaust all
`capacity` iterations with `first_deleted` unset.  (In the exhausted
case they genuinely diverge, `C8_variants_diverge`: task5 falls back to
an array scan or an emergency resize, task6 answers `(0, False)`.) -/
theorem C8_locate_agree (hash : K → Int) (t : HashTable K V) (k : K) (s2 : Nat)
    (h2v : hash2 hash t.capacity k = some s2)
    (hne : walk6 t.table k t.capacity (hash1 hash t k) s2 0 t.capacity none
      ≠ .exhausted none) :
    ∃ i b, findIndexMP hash t k = some (i, b) ∧
      ∀ g, run5 hash (g + 1) t (.findIndex k) = some (.findRes t i b) := by
  have hcap := hash2_some_le hash t.capacity k s2 h2v
  have hstart := hash1_lt hash t k (by omega)
  cases hw : walk6 t.table k t.capacity (hash1 hash t k) s2 0 t.capacity none with
  | found i =>
    exact ⟨i, true, by rw [findIndexMP_eq hash t k s2 h2v, hw],
      fun g => by rw [run5_find_eq hash g t k s2 h2v hstart, hw]⟩
  | free i fd =>
    exact ⟨(optOr fd (some i)).getD 0, false, by rw [findIndexMP_eq hash t k s2 h2v, hw],
      fun g => by rw [run5_find_eq hash g t k s2 h2v hstart, hw]⟩
  | exhausted fd =>
    cases fd with
    | none => exact absurd hw hne
    | some d =>
      exact ⟨d, false, by rw [findIndexMP_eq hash t k s2 h2v, hw],
        fun g => by rw [run5_find_eq hash g t k s2 h2v hstart, hw]⟩

/-- Witness for `C8_locate_agree`: on the empty two-slot table and key 0
both locates answer `(0, found=false)` and task5's state is untouched. -/
theorem C8_locate_agree_witness :
    ∃ i b,
      findIndexMP idHash (⟨2, lfHalf, [.empty, .empty], 0⟩ : HashTable Int Int) 0
        = some (i, b) ∧
      ∀ g, run5 idHash (g + 1) (⟨2, lfHalf, [.empty, .empty], 0⟩ : HashTable Int Int)
        (.findIndex 0)
        = some (.findRes ⟨2, lfHalf, [.empty, .empty], 0⟩ i b) :=
  C8_locate_agree idHash ⟨2, lfHalf, [.empty, .empty], 0⟩ 0 1 (by decide) (by decide)

/-! ## Structural facts preserved by the recursive cluster of task5 -/

theorem occCount_replicate_empty (n : Nat) :
    occCount (List.replicate n (Slot.empty : Slot K V)) = 0 := by
  induction n with
  | zero => rfl
  | succ m ih => rw [List.replicate_succ, occCount, List.countP_cons]; simpa [occCount] using ih

theorem occCount_cons_occupied (k : K) (v : V) (rest : List (Slot K V)) :
    occCount (Slot.occupied k v :: rest) = occCount rest + 1 := by
  rw [occCount, List.countP_cons]
  simp [occCount]

theorem occCount_cons_skip {s : Slot K V} (rest : List (Slot K V))
    (h : ∀ k v, s ≠ .occupied k v) : occCount (s :: rest) = occCount rest := by
  rw [occCount, List.countP_cons]
  cases s with
  | empty => simp [occCount]
  | deleted => simp [occCount]
  | occupied k v => exact absurd rfl (h k v)

/-- Setting a slot to an occupied pair adds at most one occupied slot. -/
theorem occCount_set_le (l : List (Slot K V)) (i : Nat) (k : K) (v : V) :
    occCount (l.set i (.occupied k v)) ≤ occCount l + 1 :=
  countP_set_le _ l i _

/-- Everything the recursive cluster of task5's `HashTable` preserves:
array length stays equal to `_capacity`, `_capacity` never shrinks (and
never drops below 2), the number of occupied slots grows by at most the
number of pairs being written, tombstone-freeness is preserved, and a
`_resize` result is additionally tombstone-free with no more occupied
slots than the old array and at least the requested capacity. -/
theorem run5_struct (hash : K → Int) :
    ∀ (fuel : Nat) (t : HashTable K V) (c : Call5 K V) (o : Out5 K V),
    run5 hash fuel t c = some o →
    t.table.length = t.capacity → 2 ≤ t.capacity →
    (match c, o with
     | .findIndex _, .findRes t' _ _ =>
       t'.table.length = t'.capacity ∧ 2 ≤ t'.capacity ∧ t.capacity ≤ t'.capacity ∧
       occCount t'.table ≤ occCount t.table ∧
       (tombFree t.table = true → tombFree t'.table = true)
     | .findIndex _, .state _ => True
     | .resize n, .state t' =>
       2 ≤ n → (t'.table.length = t'.capacity ∧ 2 ≤ t'.capacity ∧ n ≤ t'.capacity ∧
         occCount t'.table ≤ occCount t.table ∧ tombFree t'.table = true)
     | .resize _, .findRes _ _ _ => True
     | .reinsert items, .state t' =>
       t'.table.length = t'.capacity ∧ 2 ≤ t'.capacity ∧ t.capacity ≤ t'.capacity ∧
       occCount t'.table ≤ occCount t.table + occCount items ∧
       (tombFree t.table = true → tombFree t'.table = true)
     | .reinsert _, .findRes _ _ _ => True
     | .resizeIfNeeded, .state t' =>
       t'.table.length = t'.capacity ∧ 2 ≤ t'.capacity ∧ t.capacity ≤ t'.capacity ∧
       occCount t'.table ≤ occCount t.table ∧
       (tombFree t.table = true → tombFree t'.table = true)
     | .resizeIfNeeded, .findRes _ _ _ => True
     | .setItem _ _, .state t' =>
       t'.table.length = t'.capacity ∧ 2 ≤ t'.capacity ∧ t.capacity ≤ t'.capacity ∧
       occCount t'.table ≤ occCount t.table + 1 ∧
       (tombFree t.table = true → tombFree t'.table = true)
     | .setItem _ _, .findRes _ _ _ => True) := by
  intro fuel
  induction fuel with
  | zero =>
    intro t c o h _ _
    exact absurd h (by cases c <;> simp [run5])
  | succ fuel ih =>
    intro t c o h hlen hcap
    cases c with
    | findIndex k =>
      cases hh2 : hash2 hash t.capacity k with
      | none =>
        simp only [run5, hh2] at h
        exact Option.noConfusion h
      | some s2 =>
        simp only [run5, hh2] at h
        cases hw : walk5 t.table k t.capacity s2 (hash1 hash t k) t.capacity none with
        | found i =>
          simp only [hw] at h
          cases h
          exact ⟨hlen, hcap, le_refl _, le_refl _, id⟩
        | free i fd =>
          simp only [hw] at h
          cases h
          exact ⟨hlen, hcap, le_refl _, le_refl _, id⟩
        | exhausted fd =>
          cases fd with
          | some d =>
            simp only [hw] at h
            cases h
            exact ⟨hlen, hcap, le_refl _, le_refl _, id⟩
          | none =>
            simp only [hw] at h
            cases hfe : firstEmptyIdx t.table with
            | some i =>
              simp only [hfe] at h
              cases h
              exact ⟨hlen, hcap, le_refl _, le_refl _, id⟩
            | none =>
              simp only [hfe] at h
              cases hres : run5 hash fuel t (.resize (t.capacity * 2 + 1)) with
              | none => simp only [hres] at h; exact Option.noConfusion h
              | some o1 =>
                cases o1 with
                | findRes t1 i1 b1 => simp only [hres] at h; exact Option.noConfusion h
                | state t1 =>
                  simp only [hres] at h
                  have h1 := ih t (.resize (t.capacity * 2 + 1)) (.state t1) hres hlen hcap
                  rcases h1 (by omega) with ⟨hl1, hc1, hcap1, hocc1, htf1⟩
                  have h2 := ih t1 (.findIndex k) o h hl1 hc1
                  cases o with
                  | state _ => trivial
                  | findRes t2 i2 b2 =>
                    rcases h2 with ⟨hl2, hc2, hcap2, hocc2, htf2⟩
                    exact ⟨hl2, hc2, by omega, by omega, fun _ => htf2 htf1⟩
    | resize n =>
      simp only [run5] at h
      cases o with
      | findRes _ _ _ => trivial
      | state t1 =>
        intro hn
        have h1 := ih
          { capacity := n, loadFactor := t.loadFactor,
            table := List.replicate n .empty, size := 0 }
          (.reinsert t.table) (.state t1) h (by simp) hn
        rcases h1 with ⟨hl1, hc1, hcap1, hocc1, htf1⟩
        refine ⟨hl1, hc1, hcap1, ?_, htf1 (tombFree_replicate n)⟩
        have hrep : occCount (List.replicate n (Slot.empty : Slot K V)) = 0 :=
          occCount_replicate_empty n
        simp only [hrep] at hocc1
        omega
    | reinsert items =>
      cases items with
      | nil =>
        simp only [run5] at h
        cases h
        exact ⟨hlen, hcap, le_refl _, by simp, id⟩
      | cons s rest =>
        simp only [run5] at h
        cases s with
        | occupied k v =>
          cases hset : run5 hash fuel t (.setItem k v) with
          | none => simp only [hset] at h; exact Option.noConfusion h
          | some o1 =>
            cases o1 with
            | findRes t1 i1 b1 => simp only [hset] at h; exact Option.noConfusion h
            | state t1 =>
              simp only [hset] at h
              have h1 := ih t (.setItem k v) (.state t1) hset hlen hcap
              rcases h1 with ⟨hl1, hc1, hcap1, hocc1, htf1⟩
              have h2 := ih t1 (.reinsert rest) o h hl1 hc1
              cases o with
              | findRes _ _ _ => trivial
              | state t2 =>
                rcases h2 with ⟨hl2, hc2, hcap2, hocc2, htf2⟩
                refine ⟨hl2, hc2, by omega, ?_, fun ht => htf2 (htf1 ht)⟩
                rw [occCount_cons_occupied]
                omega
        | empty =>
          have h2 := ih t (.reinsert rest) o h hlen hcap
          cases o with
          | findRes _ _ _ => trivial
          | state t2 =>
            rcases h2 with ⟨hl2, hc2, hcap2, hocc2, htf2⟩
            refine ⟨hl2, hc2, hcap2, ?_, htf2⟩
            rw [occCount_cons_skip rest (by simp)]
            omega
        | deleted =>
          have h2 := ih t (.reinsert rest) o h hlen hcap
          cases o with
          | findRes _ _ _ => trivial
          | state t2 =>
            rcases h2 with ⟨hl2, hc2, hcap2, hocc2, htf2⟩
            refine ⟨hl2, hc2, hcap2, ?_, htf2⟩
            rw [occCount_cons_skip rest (by simp)]
            omega
    | resizeIfNeeded =>
      simp only [run5] at h
      split at h
      · cases o with
        | findRes _ _ _ => trivial
        | state t1 =>
          have h1 := ih t (.resize (t.capacity * 2 + 1)) (.state t1) h hlen hcap
          rcases h1 (by omega) with ⟨hl1, hc1, hcap1, hocc1, htf1⟩
          exact ⟨hl1, hc1, by omega, hocc1, fun _ => htf1⟩
      · cases h
        exact ⟨hlen, hcap, le_refl _, le_refl _, id⟩
    | setItem k v =>
      simp only [run5] at h
      cases hchk : run5 hash fuel t .resizeIfNeeded with
      | none => simp only [hchk] at h; exact Option.noConfusion h
      | some o1 =>
        cases o1 with
        | findRes _ _ _ => simp only [hchk] at h; exact Option.noConfusion h
        | state t1 =>
          simp only [hchk] at h
          cases hfind : run5 hash fuel t1 (.findIndex k) with
          | none => simp only [hfind] at h; exact Option.noConfusion h
          | some o2 =>
            cases o2 with
            | state _ => simp only [hfind] at h; exact Option.noConfusion h
            | findRes t2 i found =>
              simp only [hfind] at h
              have h1 := ih t .resizeIfNeeded (.state t1) hchk hlen hcap
              rcases h1 with ⟨hl1, hc1, hcap1, hocc1, htf1⟩
              have h2 := ih t1 (.findIndex k) (.findRes t2 i found) hfind hl1 hc1
              rcases h2 with ⟨hl2, hc2, hcap2, hocc2, htf2⟩
              have hsetlen : (t2.table.set i (.occupied k v)).length = t2.capacity := by
                rw [List.length_set]; exact hl2
              have hsetocc := occCount_set_le t2.table i k v
              cases found with
              | true =>
                simp only [if_pos] at h
                cases h
                exact ⟨hsetlen, hc2,
                  show t.capacity ≤ t2.capacity by omega,
                  show occCount (t2.table.set i (.occupied k v)) ≤ occCount t.table + 1
                    by omega,
                  fun ht => tombFree_set_occupied i k v (htf2 (htf1 ht))⟩
              | false =>
                simp only [if_neg, Bool.false_eq_true, if_false] at h
                cases h
                exact ⟨hsetlen, hc2,
                  show t.capacity ≤ t2.capacity by omega,
                  show occCount (t2.table.set i (.occupied k v)) ≤ occCount t.table + 1
                    by omega,
                  fun ht => tombFree_set_occupied i k v (htf2 (htf1 ht))⟩

theorem occCount_le_length (l : List (Slot K V)) : occCount l ≤ l.length :=
  List.countP_le_length _

/-- On a tombstone-free array the scan never records a `first_deleted`:
it ends in `found`, or in `free`/`exhausted` carrying its incoming
`first_deleted` unchanged. -/
theorem walk6_tombFree_shapes (tbl : List (Slot K V)) (k : K) (cap start h2 : Nat)
    (htf : tombFree tbl = true) :
    ∀ (s a : Nat) (fd : Option Nat),
    (∃ i, walk6 tbl k cap start h2 a s fd = .found i) ∨
    (∃ i, walk6 tbl k cap start h2 a s fd = .free i fd) ∨
    walk6 tbl k cap start h2 a s fd = .exhausted fd := by
  intro s
  induction s with
  | zero => intro a fd; right; right; rw [walk6_zero]
  | succ n ih =>
    intro a fd
    cases hslot : tbl.getD (probeAt start h2 cap a) .empty with
    | empty => right; left; exact ⟨_, walk6_eq_empty n fd hslot⟩
    | deleted =>
      have hmem : (Slot.deleted : Slot K V) ∈ tbl := by
        have hne : tbl.getD (probeAt start h2 cap a) .empty ≠ .empty := by
          rw [hslot]; simp
        have := getD_mem_of_ne hne
        rw [hslot] at this
        exact this
      rw [tombFree, List.all_eq_true] at htf
      exact absurd (htf _ hmem) (by simp)
    | occupied k' v =>
      rw [walk6_eq_occupied n fd hslot]
      by_cases hk : k' = k
      · left; exact ⟨_, by rw [if_pos hk]⟩
      · rw [if_neg hk]
        exact ih (a + 1) fd

/-- On a tombstone-free table with a spare empty slot, task5's
`_find_index` returns in one pass: no emergency resize, no recursion,
the table unchanged, whatever the fuel. -/
theorem find5_terminates_no_resize (hash : K → Int) (t : HashTable K V) (k : K)
    (hlen : t.table.length = t.capacity) (hcap : 2 ≤ t.capacity)
    (htf : tombFree t.table = true) (hocc : occCount t.table < t.capacity) :
    ∃ i b, ∀ g, run5 hash (g + 1) t (.findIndex k) = some (.findRes t i b) := by
  rcases hash2_range hash t.capacity k hcap with ⟨s2, h2v, _, _⟩
  have hstart := hash1_lt hash t k (by omega)
  rcases walk6_tombFree_shapes t.table k t.capacity (hash1 hash t k) s2 htf
      t.capacity 0 none with ⟨i, hw⟩ | ⟨i, hw⟩ | hw
  · exact ⟨i, true, fun g => by rw [run5_find_eq hash g t k s2 h2v hstart, hw]⟩
  · exact ⟨i, false, fun g => by simp only [run5_find_eq hash g t k s2 h2v hstart, hw,
      optOr_none_left, Option.getD_some]⟩
  · rcases firstEmptyIdx_isSome htf (by omega) with ⟨j, hfe⟩
    exact ⟨j, false, fun g => by
      simp only [run5_find_eq hash g t k s2 h2v hstart, hw, hfe]⟩

/-- Claim C7, amended. In task5, the emergency resize-and-retry inside
`_find_index` is bounded to a single resize: after any successful
`_resize(2 * capacity + 1)` (in particular the one locate triggers on
probe exhaustion with no free slot), the re-probe on the grown table
returns immediately — same table, no further resize, any fuel — because
the resize output is tombstone-free with an empty slot to spare.  No
probe-exhaustion condition is surfaced to the caller.  The claim's
original universal reading is refuted by `C7_mp_exhaustion_no_retry`:
task6's locate never resizes and retries at all; only its `__setitem__`
does. -/
theorem C7_resize_retry_bounded (hash : K → Int) (f : Nat) (t t' : HashTable K V) (k : K)
    (hlen : t.table.length = t.capacity) (hcap : 2 ≤ t.capacity)
    (hres : run5 hash f t (.resize (t.capacity * 2 + 1)) = some (.state t')) :
    ∃ i b, ∀ g, run5 hash (g + 1) t' (.findIndex k) = some (.findRes t' i b) := by
  have h1 := run5_struct hash f t (.resize (t.capacity * 2 + 1)) (.state t') hres hlen hcap
  rcases h1 (by omega) with ⟨hl', hc', hcap', hocc', htf'⟩
  have hoccl := occCount_le_length t.table
  have hocclt : occCount t'.table < t'.capacity := by omega
  exact find5_terminates_no_resize hash t' k hl' hc' htf' hocclt

/-- Witness for `C7_resize_retry_bounded`: resizing the empty 2-slot
table to capacity 5 succeeds, and the retried locate of key 3 on the
grown table returns at once with the table unchanged. -/
theorem C7_resize_retry_bounded_witness :
    ∃ i b, ∀ g,
      run5 idHash (g + 1)
        (⟨5, lfHalf, List.replicate 5 .empty, 0⟩ : HashTable Int Int) (.findIndex 3)
        = some (.findRes ⟨5, lfHalf, List.replicate 5 .empty, 0⟩ i b) :=
  C7_resize_retry_bounded idHash 4 ⟨2, lfHalf, [.empty, .empty], 0⟩
    ⟨5, lfHalf, List.replicate 5 .empty, 0⟩ 3 (by decide) (by decide) (by decide)

/-! ## Deletion -/

/-- After tombstoning the slot the walk found, a re-walk for the same key
reports not-found without resizing: the prefix of the walk is unchanged,
the tombstone itself is recorded in `first_deleted`, and no occupied slot
with the key remains. -/
theorem find_after_delete (hash : K → Int) (t : HashTable K V) (k : K) (s2 i : Nat)
    (hlen : t.table.length = t.capacity)
    (h2v : hash2 hash t.capacity k = some s2)
    (hw : walk6 t.table k t.capacity (hash1 hash t k) s2 0 t.capacity none = .found i)
    (huniq : ∀ m, m < t.table.length → m ≠ i →
      holdsKey k (t.table.getD m .empty) = false) :
    ∃ d,
      findIndexMP hash { t with table := t.table.set i .deleted, size := t.size - 1 } k
        = some (d, false) ∧
      ∀ g, run5 hash (g + 1) { t with table := t.table.set i .deleted, size := t.size - 1 }
        (.findIndex k)
        = some (.findRes { t with table := t.table.set i .deleted, size := t.size - 1 }
            d false) := by
  have hcap := hash2_some_le hash t.capacity k s2 h2v
  have hstart := hash1_lt hash t k (by omega)
  rcases walk6_found_inv t.table k t.capacity (hash1 hash t k) s2 t.capacity 0 none i hw
    with ⟨j, hj, hpj, ⟨v, hocc⟩, hpre⟩
  simp only [Nat.zero_add] at hpj hpre
  have hi_lt : i < t.table.length :=
    lt_length_of_getD_ne (by rw [hocc]; simp)
  set tbl' := t.table.set i (Slot.deleted : Slot K V) with htbl'
  set t' : HashTable K V :=
    { t with table := t.table.set i .deleted, size := t.size - 1 } with ht'
  have hnm' : ∀ m v', tbl'.getD m .empty ≠ .occupied k v' := by
    intro m v' hcontra
    by_cases hmi : m = i
    · subst hmi
      rw [htbl', getD_set_self hi_lt] at hcontra
      exact absurd hcontra (by simp)
    · rw [htbl', getD_set_ne _ (fun hh => hmi hh.symm)] at hcontra
      by_cases hml : m < t.table.length
      · have := huniq m hml hmi
        rw [hcontra] at this
        simp [holdsKey] at this
      · rw [List.getD_eq_default _ _ (by omega)] at hcontra
        exact absurd hcontra (by simp)
  have hpm_ne : ∀ m, m < j → probeAt (hash1 hash t k) s2 t.capacity m ≠ i := by
    intro m hm hpm
    exact (hpre m hm).2 v (by rw [hpm]; exact hocc)
  have hpre' : ∀ m, m < j →
      tbl'.getD (probeAt (hash1 hash t k) s2 t.capacity (0 + m)) .empty ≠ .empty ∧
      ∀ v', tbl'.getD (probeAt (hash1 hash t k) s2 t.capacity (0 + m)) .empty
        ≠ .occupied k v' := by
    intro m hm
    rw [Nat.zero_add, htbl', getD_set_ne _ (fun hh => hpm_ne m hm hh.symm)]
    exact hpre m hm
  have hskip := walk6_skip tbl' k t.capacity (hash1 hash t k) s2 j 0 t.capacity none
    (by omega) hpre'
  rw [Nat.zero_add, optOr_none_left] at hskip
  have hs' : t.capacity - j = (t.capacity - j - 1) + 1 := by omega
  rw [hs'] at hskip
  have hdel_at_j : tbl'.getD (probeAt (hash1 hash t k) s2 t.capacity j) .empty
      = .deleted := by
    rw [hpj, htbl', getD_set_self hi_lt]
  have hstep := @walk6_eq_deleted K V _ _ tbl' k t.capacity (hash1 hash t k) s2 j
    (t.capacity - j - 1)
    (firstDelFrom tbl' (hash1 hash t k) s2 t.capacity 0 j) hdel_at_j
  rw [hstep, hpj] at hskip
  obtain ⟨d, hd⟩ : ∃ d,
      optOr (firstDelFrom tbl' (hash1 hash t k) s2 t.capacity 0 j) (some i) = some d := by
    cases hfd : firstDelFrom tbl' (hash1 hash t k) s2 t.capacity 0 j with
    | none => exact ⟨i, rfl⟩
    | some e => exact ⟨e, rfl⟩
  rw [hd] at hskip
  have hshapes := walk6_no_match_somefd tbl' k t.capacity (hash1 hash t k) s2 hnm'
    (t.capacity - j - 1) (j + 1) d
  have hstart' : hash1 hash t' k < t'.capacity := hstart
  have h2v' : hash2 hash t'.capacity k = some s2 := h2v
  rcases hshapes with ⟨i2, hw2⟩ | hw2
  · refine ⟨d, ?_, fun g => ?_⟩
    · simp only [findIndexMP_eq hash t' k s2 h2v',
        show walk6 t'.table k t'.capacity (hash1 hash t' k) s2 0 t'.capacity none
          = .free i2 (some d) from by rw [ht']; exact hskip.trans hw2,
        optOr_getD_zero, Option.getD_some]
    · simp only [run5_find_eq hash g t' k s2 h2v' hstart',
        show walk6 t'.table k t'.capacity (hash1 hash t' k) s2 0 t'.capacity none
          = .free i2 (some d) from by rw [ht']; exact hskip.trans hw2,
        optOr_getD_zero, Option.getD_some]
  · refine ⟨d, ?_, fun g => ?_⟩
    · simp only [findIndexMP_eq hash t' k s2 h2v',
        show walk6 t'.table k t'.capacity (hash1 hash t' k) s2 0 t'.capacity none
          = .exhausted (some d) from by rw [ht']; exact hskip.trans hw2]
    · simp only [run5_find_eq hash g t' k s2 h2v' hstart',
        show walk6 t'.table k t'.capacity (hash1 hash t' k) s2 0 t'.capacity none
          = .exhausted (some d) from by rw [ht']; exact hskip.trans hw2]

/-- Claim C5, amended. On both variants, whenever locate finds the key —
its probe walk reaches an occupied slot `i` holding it — and `i` is the
only occupied slot holding it (the spec's key-uniqueness invariant),
`delete(k)` marks exactly slot `i` as a Tombstone and decrements `_size`
by exactly one (the returned state is literally the old one with slot
`i` set to `deleted` and `size - 1`); afterwards `contains(k)` is false
and `get(k)` fails with `KeyNotFound`, without any further state change.
And whenever locate reports not-found, `delete(k)` fails with
`KeyNotFound`.  The claim's original reading — delete succeeds whenever
the key is *present* — is refuted by `C5_present_key_delete_fails`: a
key stored off its probe sequence is present but locate misses it, so
`delete` raises `KeyNotFound`. -/
theorem C5_delete_spec (hash : K → Int) (t : HashTable K V) (k : K) (s2 i : Nat)
    (hlen : t.table.length = t.capacity)
    (h2v : hash2 hash t.capacity k = some s2)
    (hw : walk6 t.table k t.capacity (hash1 hash t k) s2 0 t.capacity none = .found i)
    (huniq : ∀ m, m < t.table.length → m ≠ i →
      holdsKey k (t.table.getD m .empty) = false) :
    (∀ g, delItem5 hash (g + 1) t k
      = some ({ t with table := t.table.set i .deleted, size := t.size - 1 }, true)) ∧
    delItem6 hash t k
      = some ({ t with table := t.table.set i .deleted, size := t.size - 1 }, true) ∧
    (∀ g, contains5 hash (g + 1)
        { t with table := t.table.set i .deleted, size := t.size - 1 } k
      = some ({ t with table := t.table.set i .deleted, size := t.size - 1 }, false)) ∧
    contains6 hash { t with table := t.table.set i .deleted, size := t.size - 1 } k
      = some false ∧
    (∀ g, getItem5 hash (g + 1)
        { t with table := t.table.set i .deleted, size := t.size - 1 } k
      = some ({ t with table := t.table.set i .deleted, size := t.size - 1 }, none)) ∧
    getItem6 hash { t with table := t.table.set i .deleted, size := t.size - 1 } k
      = some none ∧
    (∀ (g : Nat) (u u' : HashTable K V) (i' : Nat),
      run5 hash (g + 1) u (.findIndex k) = some (.findRes u' i' false) →
      delItem5 hash (g + 1) u k = some (u', false)) ∧
    (∀ (u : HashTable K V) (i' : Nat),
      findIndexMP hash u k = some (i', false) →
      delItem6 hash u k = some (u, false)) := by
  have hcap := hash2_some_le hash t.capacity k s2 h2v
  have hstart := hash1_lt hash t k (by omega)
  have hfind5 : ∀ g, run5 hash (g + 1) t (.findIndex k) = some (.findRes t i true) :=
    fun g => by rw [run5_find_eq hash g t k s2 h2v hstart, hw]
  have hfindMP : findIndexMP hash t k = some (i, true) := by
    rw [findIndexMP_eq hash t k s2 h2v, hw]
  rcases find_after_delete hash t k s2 i hlen h2v hw huniq with ⟨d, hdMP, hd5⟩
  refine ⟨fun g => ?_, ?_, fun g => ?_, ?_, fun g => ?_, ?_, ?_, ?_⟩
  · simp only [delItem5, hfind5 g]
  · simp only [delItem6, hfindMP]
  · simp only [contains5, hd5 g]
  · simp [contains6, hdMP]
  · simp only [getItem5, hd5 g]
  · simp only [getItem6, hdMP]
  · intro g u u' i' hu
    simp only [delItem5, hu]
  · intro u i' hu
    simp only [delItem6, hu]

/-- Witness for `C5_delete_spec`: on the reachable capacity-3 table
holding only `0 ↦ 5`, deleting key 0 tombstones slot 0 and decrements
the size to 0; the key then reports absent on both variants and a second
delete raises `KeyError`. -/
theorem C5_delete_spec_witness :
    delItem5 idHash 1 (⟨3, lfHalf, [.occupied 0 5, .empty, .empty], 1⟩ : HashTable Int Int) 0
      = some (⟨3, lfHalf, [.deleted, .empty, .empty], 0⟩, true) ∧
    contains5 idHash 1 (⟨3, lfHalf, [.deleted, .empty, .empty], 0⟩ : HashTable Int Int) 0
      = some (⟨3, lfHalf, [.deleted, .empty, .empty], 0⟩, false) ∧
    getItem6 idHash (⟨3, lfHalf, [.deleted, .empty, .empty], 0⟩ : HashTable Int Int) 0
      = some none := by
  have h := C5_delete_spec idHash
    (⟨3, lfHalf, [.occupied 0 5, .empty, .empty], 1⟩ : HashTable Int Int) 0 1 0
    (by decide) (by decide) (by decide) (by decide)
  refine ⟨?_, ?_, ?_⟩
  · rw [h.1 0]; decide
  · have h3 := h.2.2.1 0
    rw [show ({ (⟨3, lfHalf, [.occupied 0 5, .empty, .empty], 1⟩ : HashTable Int Int) with
        table := ([Slot.occupied 0 5, .empty, .empty].set 0 .deleted), size := (1 : Int) - 1 })
      = (⟨3, lfHalf, [.deleted, .empty, .empty], 0⟩ : HashTable Int Int) from by decide] at h3
    exact h3
  · have h6 := h.2.2.2.2.2.1
    rw [show ({ (⟨3, lfHalf, [.occupied 0 5, .empty, .empty], 1⟩ : HashTable Int Int) with
        table := ([Slot.occupied 0 5, .empty, .empty].set 0 .deleted), size := (1 : Int) - 1 })
      = (⟨3, lfHalf, [.deleted, .empty, .empty], 0⟩ : HashTable Int Int) from by decide] at h6
    exact h6

/-! ## Read-only operations -/

/-- Claim C10, amended. `len()` and key iteration are state-free by
construction (`lenTable` and `keysList` consume the table and return
bare values — they read `_size` and the array and touch nothing), and
task6's `contains`/`get` never mutate either (`contains6`/`getItem6`
return no table).  task5's `contains`/`get` leave the table completely
unchanged — same state returned, any fuel — whenever the probe walk does
not exhaust all `capacity` iterations with `first_deleted` unset, and
even then whenever any `None` slot exists for the fallback array scan to
find.  The claim's original universal reading is refuted by
`C10_contains_resizes`: on a reachable state with no `None` slot and an
all-occupied probe cycle, a mere membership test grows the table. -/
theorem C10_read_only_frame (hash : K → Int) (t : HashTable K V) (k : K) (s2 : Nat)
    (h2v : hash2 hash t.capacity k = some s2)
    (hok : walk6 t.table k t.capacity (hash1 hash t k) s2 0 t.capacity none
        ≠ .exhausted none
      ∨ ∃ j, firstEmptyIdx t.table = some j) :
    ∃ i b, (∀ g, run5 hash (g + 1) t (.findIndex k) = some (.findRes t i b)) ∧
      (∀ g, contains5 hash (g + 1) t k = some (t, b)) ∧
      (∃ r, ∀ g, getItem5 hash (g + 1) t k = some (t, r)) ∧
      contains6 hash t k = some b := by
  have hcap := hash2_some_le hash t.capacity k s2 h2v
  have hstart := hash1_lt hash t k (by omega)
  cases hw : walk6 t.table k t.capacity (hash1 hash t k) s2 0 t.capacity none with
  | found i =>
    rcases walk6_found_inv t.table k t.capacity (hash1 hash t k) s2 t.capacity 0 none i hw
      with ⟨j, _, _, ⟨v, hocc⟩, _⟩
    have hrun : ∀ g, run5 hash (g + 1) t (.findIndex k) = some (.findRes t i true) :=
      fun g => by rw [run5_find_eq hash g t k s2 h2v hstart, hw]
    have hslot : slotAt t i = .occupied k v := hocc
    exact ⟨i, true, hrun,
      fun g => by simp only [contains5, hrun g],
      ⟨some v, fun g => by simp only [getItem5, hrun g, hslot]⟩,
      by simp [contains6, findIndexMP_eq hash t k s2 h2v, hw]⟩
  | free i fd =>
    have hrun : ∀ g, run5 hash (g + 1) t (.findIndex k)
        = some (.findRes t ((optOr fd (some i)).getD 0) false) :=
      fun g => by rw [run5_find_eq hash g t k s2 h2v hstart, hw]
    exact ⟨(optOr fd (some i)).getD 0, false, hrun,
      fun g => by simp only [contains5, hrun g],
      ⟨none, fun g => by simp only [getItem5, hrun g]⟩,
      by simp [contains6, findIndexMP_eq hash t k s2 h2v, hw]⟩
  | exhausted fd =>
    cases fd with
    | some d =>
      have hrun : ∀ g, run5 hash (g + 1) t (.findIndex k) = some (.findRes t d false) :=
        fun g => by rw [run5_find_eq hash g t k s2 h2v hstart, hw]
      exact ⟨d, false, hrun,
        fun g => by simp only [contains5, hrun g],
        ⟨none, fun g => by simp only [getItem5, hrun g]⟩,
        by simp [contains6, findIndexMP_eq hash t k s2 h2v, hw]⟩
    | none =>
      rcases hok with hne | ⟨j, hfe⟩
      · exact absurd hw hne
      · have hrun : ∀ g, run5 hash (g + 1) t (.findIndex k) = some (.findRes t j false) :=
          fun g => by simp only [run5_find_eq hash g t k s2 h2v hstart, hw, hfe]
        exact ⟨j, false, hrun,
          fun g => by simp only [contains5, hrun g],
          ⟨none, fun g => by simp only [getItem5, hrun g]⟩,
          by simp [contains6, findIndexMP_eq hash t k s2 h2v, hw]⟩

/-- Witness for `C10_read_only_frame`: membership of key 1 in the
capacity-2 table holding only `0 ↦ 9` answers `False` on both variants
and returns the task5 table unchanged. -/
theorem C10_read_only_frame_witness :
    ∃ i b,
      (∀ g, run5 idHash (g + 1)
          (⟨2, lfHalf, [.occupied 0 9, .empty], 1⟩ : HashTable Int Int) (.findIndex 1)
        = some (.findRes ⟨2, lfHalf, [.occupied 0 9, .empty], 1⟩ i b)) ∧
      (∀ g, contains5 idHash (g + 1)
          (⟨2, lfHalf, [.occupied 0 9, .empty], 1⟩ : HashTable Int Int) 1
        = some (⟨2, lfHalf, [.occupied 0 9, .empty], 1⟩, b)) ∧
      (∃ r, ∀ g, getItem5 idHash (g + 1)
          (⟨2, lfHalf, [.occupied 0 9, .empty], 1⟩ : HashTable Int Int) 1
        = some (⟨2, lfHalf, [.occupied 0 9, .empty], 1⟩, r)) ∧
      contains6 idHash (⟨2, lfHalf, [.occupied 0 9, .empty], 1⟩ : HashTable Int Int) 1
        = some b :=
  C10_read_only_frame idHash ⟨2, lfHalf, [.occupied 0 9, .empty], 1⟩ 1 1
    (by decide) (Or.inl (by decide))

end HashSpec
